import Mathlib

/-!
# Verification of the typegrad tensor/autograd core

Shallow embedding of the TypeScript sources (`src/helpers.ts`, `src/view.ts`,
the `Tensor` class and its op catalog) into Lean 4, together with theorems
settling the frozen claims about the specification.

Modelling conventions:
* JS `number` buffer values are modelled as elements of a linearly ordered
  commutative ring `R` (the source stores 32-bit floats; the claims under
  study are about shapes, error behaviour and exact algebraic identities,
  for which exact arithmetic is the intended reading).  Claims about
  concrete integer-valued runs instantiate `R := Int`; the claim about the
  uniform random initializer, whose samples are fractional, instantiates
  `R := Rat`.
* A JS array read out of range yields `undefined`; reads of tensor buffers out
  of range are modelled as the default value `0`, and out-of-range writes to a
  `Float32Array` are silently ignored, modelled as a no-op (`List.set` is a
  no-op out of range).  No claim depends on the numeric value of an
  out-of-range read.
* Methods that can `throw` return `Except String`.
* The helper `equal` of `helpers.ts` is `a.every((ai, i) => ai === b[i])`:
  it compares only positions of `a`, so it is true whenever `a` is a
  positionwise prefix of `b`.  The embedding `equal` reproduces this exactly.
-/

namespace Typegrad

/-! ## helpers.ts -/

/-- `equal` of `helpers.ts`: `a.every((ai, i) => ai === b[i])`.
Note there is no length check: when `a` is longer than `b` the comparison
against `b[i] = undefined` is false (second equation), and positions of `b`
beyond the length of `a` are never looked at (first equation), so the
result is true iff `a` is a positionwise PREFIX of `b` — in particular
`equal` is true whenever `a` is shorter and matches the front of `b`. -/
def equal : List Nat → List Nat → Bool
  | [], _ => true
  | _ :: _, [] => false
  | a :: as, b :: bs => a == b && equal as bs

/-- `prod` of `helpers.ts`: `data.reduce((acc, item) => acc * item, 1)`. -/
def prod (l : List Nat) : Nat :=
  l.foldl (· * ·) 1

/-! ## view.ts -/

/-- `canonicalizeStrides`: `strides.map((stride, i) => (shape[i] === 1 ? 0 : stride))`.
The map is over `strides`, with `shape` read at the same position; a
position of `strides` beyond the length of `shape` compares
`undefined === 1`, which is false, so the stride is kept (second
equation). -/
def canonicalizeStrides : List Nat → List Nat → List Nat
  | _, [] => []
  | [], st :: sts => st :: canonicalizeStrides [] sts
  | s :: ss, st :: sts => (if s == 1 then 0 else st) :: canonicalizeStrides ss sts

/-- The loop body of `stridesForShape` before canonicalization:
`strides[size-1] = 1; strides[i] = shape[i+1] * strides[i+1]` (right to left). -/
def rawStridesForShape : List Nat → List Nat
  | [] => []
  | [_] => [1]
  | _ :: b :: rest =>
      (b * (rawStridesForShape (b :: rest)).headD 0) :: rawStridesForShape (b :: rest)

/-- `stridesForShape` of `view.ts`: default row-major strides, canonicalized. -/
def stridesForShape (shape : List Nat) : List Nat :=
  canonicalizeStrides shape (rawStridesForShape shape)

/-- The `View` class: `shape`, `strides`, `contiguous`. -/
structure View where
  shape : List Nat
  strides : List Nat
  contiguous : Bool
  deriving Repr, DecidableEq

/-- The `View` constructor: `strides` optional; given strides are
canonicalized, otherwise the default strides are used; `contiguous` is
`equal(this.strides, defaultStrides)`. -/
def View.make (shape : List Nat) (strides? : Option (List Nat)) : View :=
  let defaultStrides := stridesForShape shape
  let strides :=
    match strides? with
    | some s => canonicalizeStrides shape s
    | none => defaultStrides
  ⟨shape, strides, equal strides defaultStrides⟩

/-- `View.ndim`: `this.shape.length`. -/
def View.ndim (v : View) : Nat :=
  v.shape.length

/-- JS `l[i]` for an integer index on a `number[]`: out of range (including
negative) is `undefined`, modelled as the default `0` (no claim under study
depends on the value of such a read). -/
def natAtI (l : List Nat) (i : Int) : Nat :=
  if 0 ≤ i then l.getD i.toNat 0 else 0

/-- `View.permute(order)`.  Mirrors the source exactly, including the lax
no-op shortcut: when the permuted shape satisfies `equal(shape, this.shape)`
the SAME view is returned (the source returns `this`), even when the strides
of a genuine permutation would differ. -/
def View.permute (v : View) (order : List Int) : Except String View :=
  if v.ndim ≠ order.length then
    .error ("[View.permute] order length is invalid")
  else
    let shape := (List.range v.shape.length).map (fun i => natAtI v.shape (order.getD i 0))
    if equal shape v.shape then
      .ok v
    else
      let strides := (List.range v.strides.length).map (fun i => natAtI v.strides (order.getD i 0))
      .ok (View.make shape (some strides))

/-- `View.reshape(newShape)`: returns `this` when `equal(newShape, this.shape)`
(the lax prefix check), else requires equal products, else requires
contiguity. -/
def View.reshape (v : View) (newShape : List Nat) : Except String View :=
  if equal newShape v.shape then
    .ok v
  else
    let currentSize := prod v.shape
    let newSize := prod newShape
    if currentSize ≠ newSize then
      .error ("[View.reshape] size mismatched")
    else if v.contiguous then
      .ok (View.make newShape none)
    else
      .error ("[View.reshape] reshape of non-contiguous view is currently not supported")

/-- The per-axis check of `View.expand`:
`this.shape.every((s, i) => s === newShape[i] || s === 1)`; a position
beyond the length of `newShape` compares against `undefined`, which is
false, leaving only `s === 1`. -/
def expandOk : List Nat → List Nat → Bool
  | [], _ => true
  | s :: ss, [] => (s == 1) && expandOk ss []
  | s :: ss, n :: ns => (s == n || s == 1) && expandOk ss ns

/-- `View.expand(newShape)`: same rank, each axis equal or of size 1;
reuses the strides (canonicalized by the constructor). -/
def View.expand (v : View) (newShape : List Nat) : Except String View :=
  if equal newShape v.shape then
    .ok v
  else if v.ndim ≠ newShape.length then
    .error ("[View.expand] shape length mismatch")
  else if ¬ (expandOk v.shape newShape) then
    .error ("[View.expand] shape values mismatch")
  else
    .ok (View.make newShape (some v.strides))

/-- `View.indices()`: the row-major (last-axis-fastest) enumeration of all
coordinate tuples of a shape.  The source generates them with an
odometer-style increment-with-carry loop yielding `prod shape` tuples in
row-major order; this closed recursive form enumerates the same sequence. -/
def enumIndices : List Nat → List (List Nat)
  | [] => [[]]
  | s :: rest => (List.range s).flatMap (fun i => (enumIndices rest).map (fun idx => i :: idx))

/-! ## The Tensor class (latest snapshot, with `requiresGrad` flags)

Value layer: buffer contents and views.  The gradient-graph metadata
(`op`, `grad`, `requiresGrad`) is modelled separately in the graph layer
below; it never influences the computed data or views. -/

/-- A tensor value: flat buffer plus view.  (`Float32Array` modelled as
`List R`, see the header.) -/
structure Tensor (R : Type) where
  data : List R
  view : View
  deriving Repr, DecidableEq

variable {R : Type} [LinearOrderedCommRing R]

/-- `Tensor.shape`: `this.view.shape`. -/
def Tensor.shape (t : Tensor R) : List Nat :=
  t.view.shape

/-- `Tensor.ndim`: `this.shape.length`. -/
def Tensor.ndim (t : Tensor R) : Nat :=
  t.shape.length

/-- `Tensor.numel()`: `prod(this.shape)`. -/
def Tensor.numel (t : Tensor R) : Nat :=
  prod t.shape

/-- JS `l.at(i)`: non-negative indices from the front, negative from the
back, `undefined` (here `none`) when out of range either way. -/
def listAtI (l : List Nat) (i : Int) : Option Nat :=
  if 0 ≤ i then l.get? i.toNat
  else if 0 ≤ (l.length : Int) + i then l.get? ((l.length : Int) + i).toNat
  else none

/-- The offset computation of `Tensor.get`/`Tensor.set`:
`indices.reduce((acc, index, i) => acc + index * this.view.strides[i], 0)`,
with integer (possibly negative) index components. -/
def flatIndexI (strides : List Nat) (indices : List Int) : Int :=
  (indices.zip strides).foldl (fun acc p => acc + p.1 * (p.2 : Int)) 0

/-- `this.data[index]` for an integer offset: a JS typed-array read out of
range yields `undefined`, modelled as `0`; it never throws. -/
def dataAtI (d : List R) (i : Int) : R :=
  if 0 ≤ i then d.getD i.toNat 0 else 0

/-- `this.data[index] = value` for an integer offset: a JS typed-array
write out of range is silently ignored; it never throws
(`List.set` is a no-op out of range). -/
def dataSetI (d : List R) (i : Int) (v : R) : List R :=
  if 0 ≤ i then d.set i.toNat v else d

/-- `Tensor.get(indices)`: only the arity of the index is checked
(`indices.length !== this.ndim` throws); the components are never
range-checked. -/
def Tensor.get (t : Tensor R) (indices : List Int) : Except String R :=
  if indices.length ≠ t.ndim then
    .error ("[Tensor.get] sub-tensor indexing is not supported for now")
  else
    .ok (dataAtI t.data (flatIndexI t.view.strides indices))

/-- `Tensor.set(indices, value)`: only the arity of the index is checked;
the buffer write is returned as a new tensor (state passing). -/
def Tensor.set (t : Tensor R) (indices : List Int) (v : R) : Except String (Tensor R) :=
  if indices.length ≠ t.ndim then
    .error ("[Tensor.set] sub-tensor assignment is not supported for now")
  else
    .ok { t with data := dataSetI t.data (flatIndexI t.view.strides indices) v }

/-- The offset computation restricted to the non-negative index tuples
produced internally by `View.indices()`; the same arithmetic as
`flatIndexI` on the embedded-as-`Int` components. -/
def flatIndexN (strides indices : List Nat) : Nat :=
  (indices.zip strides).foldl (fun acc p => acc + p.1 * p.2) 0

/-- Unchecked element read at a non-negative full-rank index; the inlining
of `Tensor.get` at call sites where the arity check always passes (the
elementwise loops read operands at indices enumerating a shape of the same
rank as the operand). -/
def Tensor.atN (t : Tensor R) (idx : List Nat) : R :=
  t.data.getD (flatIndexN t.view.strides idx) 0

/-- Unchecked element write at a non-negative full-rank index; the inlining
of `Tensor.set` at call sites where the arity check always passes (the
result tensor is written at indices enumerating its own shape). -/
def Tensor.setAtN (t : Tensor R) (idx : List Nat) (v : R) : Tensor R :=
  { t with data := t.data.set (flatIndexN t.view.strides idx) v }

/-- The Nat-index specialization of `Tensor.get` WITH its arity check, used
to embed `this.get(...)` inside `Tensor.sum`, where the check genuinely can
fail (the reconstructed index can have the wrong arity). -/
def Tensor.getCheckedN (t : Tensor R) (idx : List Nat) : Except String R :=
  if idx.length ≠ t.ndim then
    .error ("[Tensor.get] sub-tensor indexing is not supported for now")
  else
    .ok (t.atN idx)

/-- `Tensor.zeros(shape)`: zero-filled buffer of `prod(shape)` elements. -/
def Tensor.zeros (shape : List Nat) : Tensor R :=
  ⟨List.replicate (prod shape) 0, View.make shape none⟩

/-- `Tensor.full(shape, fillValue)`. -/
def Tensor.full (shape : List Nat) (v : R) : Tensor R :=
  ⟨List.replicate (prod shape) v, View.make shape none⟩

/-- `Tensor.ones(shape)` = `Tensor.full(shape, 1)`. -/
def Tensor.ones (shape : List Nat) : Tensor R :=
  Tensor.full shape 1

/-- `Tensor.zerosLike()`. -/
def Tensor.zerosLike (t : Tensor R) : Tensor R :=
  Tensor.zeros t.shape

/-- `Tensor.onesLike()`. -/
def Tensor.onesLike (t : Tensor R) : Tensor R :=
  Tensor.ones t.shape

/-- `Tensor.reshape(newShape)` (value layer): the source returns `this`
when the view is unchanged and otherwise a new tensor sharing the same
buffer; as data-and-view values both outcomes are the same pair. -/
def Tensor.reshape (t : Tensor R) (newShape : List Nat) : Except String (Tensor R) := do
  let v ← t.view.reshape newShape
  pure ⟨t.data, v⟩

/-- `Tensor.permute(order)` (value layer). -/
def Tensor.permuteT (t : Tensor R) (order : List Int) : Except String (Tensor R) := do
  let v ← t.view.permute order
  pure ⟨t.data, v⟩

/-- `Tensor.expand(newShape)` (value layer). -/
def Tensor.expand (t : Tensor R) (newShape : List Nat) : Except String (Tensor R) := do
  let v ← t.view.expand newShape
  pure ⟨t.data, v⟩

/-- `Tensor.transpose(dim0, dim1)`: normalizes negative dims, checks only
the UPPER bound, swaps the two entries of the identity order.  The JS
assignment `order[dim0] = dim1` at a negative `dim0` leaves the array
unchanged (property assignment), hence the guards. -/
def Tensor.transpose (t : Tensor R) (dim0 dim1 : Int) : Except String (Tensor R) :=
  let d0 := if dim0 < 0 then (t.ndim : Int) + dim0 else dim0
  let d1 := if dim1 < 0 then (t.ndim : Int) + dim1 else dim1
  if d0 > (t.ndim : Int) - 1 then
    .error ("[Tensor.transpose] dim0 is out of bounds")
  else if d1 > (t.ndim : Int) - 1 then
    .error ("[Tensor.transpose] dim1 is out of bounds")
  else
    let order : List Int := (List.range t.ndim).map Int.ofNat
    let order := if 0 ≤ d0 then order.set d0.toNat d1 else order
    let order := if 0 ≤ d1 then order.set d1.toNat d0 else order
    t.permuteT order

/-- `[...Array(maxDim - shape.length).fill(1), ...shape]`: left-pad a shape
with size-1 axes up to the aligned rank. -/
def alignShape (maxDim : Nat) (shape : List Nat) : List Nat :=
  List.replicate (maxDim - shape.length) 1 ++ shape

/-- `aAligned.every((ai, i) => ai === bAligned[i] || ai === 1 ||
bAligned[i] === 1)`; the two aligned shapes have the same length, so the
indexed `every` is the zipped form. -/
def canBroadcastB (a b : List Nat) : Bool :=
  (a.zip b).all (fun p => p.1 == p.2 || p.1 == 1 || p.2 == 1)

/-- `aAligned.map((ai, i) => Math.max(ai, bAligned[i]))` (same length on
both sides, so the indexed `map` is `zipWith`). -/
def commonShape (a b : List Nat) : List Nat :=
  a.zipWith max b

/-- `Tensor.broadcasted(a, b)` (the latest snapshot, which reshapes to the
aligned rank and then expands to the common shape). -/
def broadcasted (a b : Tensor R) : Except String (Tensor R × Tensor R) := do
  let maxDim := max a.shape.length b.shape.length
  let aAligned := alignShape maxDim a.shape
  let bAligned := alignShape maxDim b.shape
  if ¬ canBroadcastB aAligned bAligned then
    throw ("[Tensor.broadcasted] shape values mismatch")
  else
    let shape := commonShape aAligned bAligned
    let a2 ← a.reshape aAligned
    let a3 ← a2.expand shape
    let b2 ← b.reshape bAligned
    let b3 ← b2.expand shape
    pure (a3, b3)

/-- The elementwise loop shared by the binary operations:
`for (let indices of result.indices()) result.set(indices, f(indices))`.
The arity checks of the inlined get/set always pass here: the enumerated
indices have the rank of the result, which equals the rank of both
broadcast operands. -/
def fill (res : Tensor R) (f : List Nat → R) : Tensor R :=
  (enumIndices res.view.shape).foldl (fun r idx => r.setAtN idx (f idx)) res

/-- `Tensor.add` for tensor operands: broadcast, then fill a zero tensor of
the common shape with `a.get(indices) + b.get(indices)`. -/
def Tensor.add (x y : Tensor R) : Except String (Tensor R) := do
  let (a, b) ← broadcasted x y
  pure (fill a.zerosLike (fun idx => a.atN idx + b.atN idx))

/-- `Tensor.mul` for tensor operands. -/
def Tensor.mul (x y : Tensor R) : Except String (Tensor R) := do
  let (a, b) ← broadcasted x y
  pure (fill a.zerosLike (fun idx => a.atN idx * b.atN idx))

/-- `Tensor.mul` for a scalar operand: the source wraps the number as
`Tensor.from([value])`, a rank-1 tensor of shape `[1]`. -/
def Tensor.mulNum (x : Tensor R) (c : R) : Except String (Tensor R) :=
  x.mul ⟨[c], View.make [1] none⟩

/-- `Tensor.sum(axis, keepDim = false)`.  Negative axes are normalized by
adding `ndim`; only the UPPER bound is checked.  When the normalized axis
is still negative (original axis below `-ndim`):
`shape.splice(axis, ...)` interprets the negative start from the end
(clamped at 0), `shape[axis]` is `undefined`, so the inner loop
(`i < undefined`) runs zero times and the result stays zero-filled.
The inner `this.get(...)` is the checked get, whose arity check can fail
for a reconstructed index of the wrong arity. -/
def Tensor.sum (t : Tensor R) (axis : Int) (keepDim : Bool) : Except String (Tensor R) := do
  let axis := if axis < 0 then (t.ndim : Int) + axis else axis
  if axis > (t.ndim : Int) - 1 then
    throw ("[Tensor.sum] axis is out of range")
  else
    let len := t.shape.length
    let start : Nat := if axis < 0 then (max ((len : Int) + axis) 0).toNat else min axis.toNat len
    let shape :=
      if keepDim then t.shape.take start ++ 1 :: t.shape.drop (start + 1)
      else t.shape.take start ++ t.shape.drop (start + 1)
    let sumDimSize : Nat := if axis < 0 then 0 else t.shape.getD axis.toNat 0
    let result := Tensor.zeros shape
    (enumIndices result.view.shape).foldlM
      (fun (r : Tensor R) idx => do
        let value ← (List.range sumDimSize).foldlM
          (fun (acc : R) i => do
            let v ← t.getCheckedN (idx.take axis.toNat ++ i :: idx.drop (axis.toNat + 1))
            pure (acc + v))
          0
        pure (r.setAtN idx value))
      result

/-- `Tensor.dot(tensor)`: composed from reshape, transpose, mul and sum
exactly as in the source (`slice` with negative bounds written as
take/drop of clamped lengths; `.at` is `listAtI`; comparing two
`undefined` shape entries is true in JS, matching `Option` equality). -/
def Tensor.dot (x y : Tensor R) : Except String (Tensor R) := do
  let bAxis : Int := -(min y.ndim 2 : Nat)
  if listAtI x.shape (-1) ≠ listAtI y.shape bAxis then
    throw ("[Tensor.dot] invalid shapes")
  else
    let filler : List Nat := if x.ndim < 2 ∨ y.ndim < 2 then [] else [1]
    let a ← x.reshape (x.shape.take (x.ndim - 1) ++ filler ++ x.shape.drop (x.ndim - 1))
    let bk := y.ndim - min y.ndim 2
    let b ← y.reshape (y.shape.take bk ++ filler ++ y.shape.drop bk)
    let b ← b.transpose (-1) bAxis
    let m ← a.mul b
    m.sum (-1) false

/-- `Tensor.rand(shape)`: fills a buffer of `prod(shape)` elements with
successive samples of the external random stream.  The spec scopes the
random number generator out as an external collaborator consumed as a
stream of samples in `[0, 1)`; the stream is the parameter `rng`. -/
def Tensor.rand (rng : Nat → R) (shape : List Nat) : Tensor R :=
  ⟨(List.range (prod shape)).map rng, View.make shape none⟩

/-- `Tensor.uniform(shape, low, high)`:
`Tensor.rand(shape).mul(high - low)` — note the source never adds `low`. -/
def Tensor.uniform (rng : Nat → R) (shape : List Nat) (low high : R) :
    Except String (Tensor R) :=
  (Tensor.rand rng shape).mulNum (high - low)

/-- `Tensor.kaimingUniform(shape, a)`: the source computes the non-negative
real `bound = Math.sqrt(3) * Math.sqrt(2 / (1 + a**2)) / Math.sqrt(prod(shape.slice(1)))`
and returns `Tensor.uniform(shape, -bound, bound)`.  The square roots are
irrational, so the embedding takes the bound as an explicit parameter
(every value the source can produce is non-negative) and performs the same
call to `uniform`. -/
def Tensor.kaimingUniform (rng : Nat → R) (shape : List Nat) (bound : R) :
    Except String (Tensor R) :=
  Tensor.uniform rng shape (-bound) bound

/-! ## Graph layer: op records, toposort and the backward pass

JS object identity (used by the visited set of `toposort` and by the
in-place gradient accumulation) is modelled with an arena: the graph is a
list of nodes and tensors participating in the graph are node indices.
Only the op records reachable from the operations exercised by the claims
(`Add`, and the `Reshape`/`Expand` records that `broadcasted` can attach)
are embedded. -/

/-- An op record: the constructor arguments are the arena indices of the
`inputs` tensors, positionally as in the source classes. -/
inductive GOp where
  | addOp (x y : Nat)
  | reshapeOp (x : Nat)
  | expandOp (x : Nat)
  deriving Repr, DecidableEq

/-- `Op.inputs`, positionally aligned with `backward`. -/
def GOp.inputs : GOp → List Nat
  | .addOp x y => [x, y]
  | .reshapeOp x => [x]
  | .expandOp x => [x]

/-- A graph node: the Tensor fields `data`/`view` (as `val`),
`requiresGrad`, `op` and `grad`.  A gradient is a plain tensor (the op
`backward` methods sever gradient tracking), so `grad` carries no graph. -/
structure GNode (R : Type) where
  val : Tensor R
  requiresGrad : Bool
  op : Option GOp
  grad : Option (Tensor R)
  deriving Repr, DecidableEq

/-- Arena lookup.  Node indices are produced only by the builders below, so
they are always in range in any modelled run; the default is unreachable. -/
def gnode (g : List (GNode R)) (i : Nat) : GNode R :=
  g.getD i ⟨⟨[], View.make [] none⟩, false, none, none⟩

/-- Append a node, returning its index. -/
def gpush (g : List (GNode R)) (n : GNode R) : List (GNode R) × Nat :=
  (g ++ [n], g.length)

/-- `Tensor.from(ndArray, requiresGrad)`: a leaf node with no op. -/
def gleaf (g : List (GNode R)) (t : Tensor R) (rg : Bool) : List (GNode R) × Nat :=
  gpush g ⟨t, rg, none, none⟩

/-- `Tensor.reshape` with graph recording: `if (this.view === view) return
this` — the view object is identical exactly when `View.reshape` took its
`equal(newShape, this.shape)` branch; otherwise a new tensor is created and,
when `requiresGrad`, a `Reshape` op is attached. -/
def greshape (g : List (GNode R)) (i : Nat) (newShape : List Nat) :
    Except String (List (GNode R) × Nat) := do
  let node := gnode g i
  let v ← node.val.view.reshape newShape
  if equal newShape node.val.view.shape then
    pure (g, i)
  else
    pure (gpush g ⟨⟨node.val.data, v⟩, node.requiresGrad,
      if node.requiresGrad then some (.reshapeOp i) else none, none⟩)

/-- `Tensor.expand` with graph recording; same identity convention. -/
def gexpand (g : List (GNode R)) (i : Nat) (newShape : List Nat) :
    Except String (List (GNode R) × Nat) := do
  let node := gnode g i
  let v ← node.val.view.expand newShape
  if equal newShape node.val.view.shape then
    pure (g, i)
  else
    pure (gpush g ⟨⟨node.val.data, v⟩, node.requiresGrad,
      if node.requiresGrad then some (.expandOp i) else none, none⟩)

/-- `Tensor.broadcasted` with graph recording. -/
def gbroadcasted (g : List (GNode R)) (ia ib : Nat) :
    Except String (List (GNode R) × Nat × Nat) := do
  let a := (gnode g ia).val
  let b := (gnode g ib).val
  let maxDim := max a.shape.length b.shape.length
  let aAligned := alignShape maxDim a.shape
  let bAligned := alignShape maxDim b.shape
  if ¬ canBroadcastB aAligned bAligned then
    throw ("[Tensor.broadcasted] shape values mismatch")
  else
    let shape := commonShape aAligned bAligned
    let (g, ia2) ← greshape g ia aAligned
    let (g, ia3) ← gexpand g ia2 shape
    let (g, ib2) ← greshape g ib bAligned
    let (g, ib3) ← gexpand g ib2 shape
    pure (g, ia3, ib3)

/-- `Tensor.add` with graph recording: the op inputs are the
broadcast-expanded operands, and `requiresGrad` propagates. -/
def gadd (g : List (GNode R)) (ix iy : Nat) : Except String (List (GNode R) × Nat) := do
  let (g, ia, ib) ← gbroadcasted g ix iy
  let a := (gnode g ia).val
  let b := (gnode g ib).val
  let value := fill a.zerosLike (fun idx => a.atN idx + b.atN idx)
  let rg := (gnode g ia).requiresGrad || (gnode g ib).requiresGrad
  pure (gpush g ⟨value, rg, if rg then some (.addOp ia ib) else none, none⟩)

/-- The `backward(resultGrad)` methods of the op records.  `Add` returns the
gradient to both inputs; `Reshape` reshapes it back to the input shape;
`Expand` counts the simultaneously expanded axes (comparing `undefined`
against 1 is false in JS, matching the default here), fails for more than
one, and otherwise sums over the found axis (`findIndex` yields `-1` when no
axis differs, making `sum(-1, true)` reduce the last axis). -/
def GOp.backward (g : List (GNode R)) : GOp → Tensor R → Except String (List (Tensor R))
  | .addOp _ _, grad => pure [grad, grad]
  | .reshapeOp x, grad => do
      let r ← grad.reshape (gnode g x).val.shape
      pure [r]
  | .expandOp x, grad => do
      let xs := (gnode g x).val.shape
      let expanding := xs.enum.filter (fun p => p.2 == 1 && ¬ (grad.shape.getD p.1 0 == 1))
      if expanding.length > 1 then
        throw ("[Expand.backward] cannot expand more than 1 dim at a time")
      else
        let sumAxis : Int :=
          match xs.enum.find? (fun p => p.2 == 1 && ¬ (grad.shape.getD p.1 0 == 1)) with
          | some p => (p.1 : Int)
          | none => -1
        let r ← grad.sum sumAxis true
        pure [r]

/-- The recursive `visit` of `Tensor.toposort`: add the node to the visited
set, visit unvisited inputs, then append the node to the sorted list.  The
recursion is fuelled: the source recursion nests at most once per distinct
node (every nested call is on an unvisited node), so `g.length + 1` units
of fuel make the fuelled function agree with the source. -/
def toposortVisit (g : List (GNode R)) :
    Nat → Nat → List Nat → List Nat → List Nat × List Nat
  | 0, _, visited, sorted => (visited, sorted)
  | fuel + 1, id, visited, sorted =>
    let visited := visited ++ [id]
    let (visited, sorted) :=
      match (gnode g id).op with
      | some op =>
          op.inputs.foldl
            (fun (p : List Nat × List Nat) inp =>
              if inp ∈ p.1 then p else toposortVisit g fuel inp p.1 p.2)
            (visited, sorted)
      | none => (visited, sorted)
    (visited, sorted ++ [id])

/-- `Tensor.toposort()`: post-order DFS from the root. -/
def toposort (g : List (GNode R)) (root : Nat) : List Nat :=
  (toposortVisit g (g.length + 1) root [] []).2

/-- `Tensor.backward(grad?)`: requires `requiresGrad` on the root; defaults
the gradient to ones; checks the gradient shape with the lax `equal`; seeds
the root by ACCUMULATION (`this.grad ? this.grad.add(grad) : grad`); then
processes the reversed toposort, invoking each op `backward` with the
node accumulated gradient (`node.grad!` — every op-bearing node has
received a gradient by then, so the `getD` default is unreachable) and
accumulating into each `requiresGrad` input. -/
def gbackward (g : List (GNode R)) (rootId : Nat) (gradIn : Option (Tensor R)) :
    Except String (List (GNode R)) := do
  let root := gnode g rootId
  if ¬ root.requiresGrad then
    throw ("[Tensor.backward] root Tensor has requiresGrad=false")
  else
    let grad := gradIn.getD root.val.onesLike
    if ¬ (equal grad.shape root.val.shape) then
      throw ("[Tensor.backward] backward grad has invalid shape")
    else do
      let newGrad ← match root.grad with
        | some g0 => g0.add grad
        | none => pure grad
      let g := g.set rootId { root with grad := some newGrad }
      let sorted := toposort g rootId
      sorted.reverse.foldlM
        (fun (gs : List (GNode R)) nid => do
          let node := gnode gs nid
          match node.op with
          | none => pure gs
          | some op => do
            let nodeGrad := node.grad.getD node.val.zerosLike
            let inputGrads ← op.backward gs nodeGrad
            op.inputs.enum.foldlM
              (fun (gs2 : List (GNode R)) p => do
                let inp := gnode gs2 p.2
                if ¬ inp.requiresGrad then
                  pure gs2
                else do
                  let ig := inputGrads.getD p.1 inp.val.zerosLike
                  let ng ← match inp.grad with
                    | some g0 => g0.add ig
                    | none => pure ig
                  pure (gs2.set p.2 { inp with grad := some ng }))
              gs)
        g

/-! ## Characterization of the `View` invariant (claim C8) -/

/-- The spec invariant: strides aligned with the shape, and every axis of
size 1 carries stride 0. -/
def goodView (v : View) : Prop :=
  v.strides.length = v.shape.length ∧
  ∀ i, i < v.shape.length → v.shape.getD i 0 = 1 → v.strides.getD i 0 = 0

/-! ## Concrete scenarios used by the claims about code/spec divergences -/

/-- `Tensor.from([[1, 2], [3, 4]])`. -/
def c1A : Tensor Int := ⟨[1, 2, 3, 4], View.make [2, 2] none⟩

/-- `Tensor.from([[5, 6], [7, 8]])`. -/
def c1B : Tensor Int := ⟨[5, 6, 7, 8], View.make [2, 2] none⟩

/-- The `a` of the repository's own `dot` test: `[[1,2,3],[5,7,11]]`. -/
def cTestA : Tensor Int := ⟨[1, 2, 3, 5, 7, 11], View.make [2, 3] none⟩

/-- The `b` of the repository's own `dot` test:
`[[13,17,19,23],[29,31,37,41],[43,47,53,59]]`. -/
def cTestB : Tensor Int :=
  ⟨[13, 17, 19, 23, 29, 31, 37, 41, 43, 47, 53, 59], View.make [3, 4] none⟩

/-- Graph of `r = x.add(y)` for leaves `x = Tensor.from([1], true)` and
`y = Tensor.from([1], true)`; returns the arena and the root index. -/
def c2Built : Except String (List (GNode Int) × Nat) :=
  let s1 := gleaf [] ⟨[1], View.make [1] none⟩ true
  let s2 := gleaf s1.1 ⟨[1], View.make [1] none⟩ true
  gadd s2.1 s1.2 s2.2

/-- One `r.backward(g)` call with the explicit gradient `g = [1]` on that
graph. -/
def c2Once : Except String (List (GNode Int)) := do
  let (g, r) ← c2Built
  gbackward g r (some ⟨[1], View.make [1] none⟩)

/-- Two `r.backward(g)` calls with the same explicit gradient `g = [1]`. -/
def c2Twice : Except String (List (GNode Int)) := do
  let (g, r) ← c2Built
  let g2 ← gbackward g r (some ⟨[1], View.make [1] none⟩)
  gbackward g2 r (some ⟨[1], View.make [1] none⟩)

/-- `backward` on a leaf root of shape `(2, 3)` with an explicitly supplied
gradient of shape `(2)` — a positionwise PREFIX of the root shape. -/
def c5Run : Except String (List (GNode Int)) :=
  gbackward (gleaf [] (⟨[1, 2, 3, 4, 5, 6], View.make [2, 3] none⟩ : Tensor Int) true).1 0
    (some ⟨[1, 1], View.make [2] none⟩)

/-- A rank-2 tensor of shape `(2, 3)` for the `sum` axis-range claim. -/
def c6X : Tensor Int := ⟨[1, 2, 3, 4, 5, 6], View.make [2, 3] none⟩

/-- `Tensor.from([[1,2,3],[4,5,6]])` for the broadcast-add witness. -/
def c7A : Tensor Int := ⟨[1, 2, 3, 4, 5, 6], View.make [2, 3] none⟩

/-- `Tensor.from([10, 20, 30])` (broadcast against `c7A`). -/
def c7B : Tensor Int := ⟨[10, 20, 30], View.make [3] none⟩

/-- The value of `c7A.add(c7B)`. -/
def c7R : Tensor Int := ⟨[11, 22, 33, 14, 25, 36], View.make [2, 3] none⟩

/-- A small tensor for the get/set arity witness. -/
def c10T : Tensor Int := ⟨[1, 2, 3, 4], View.make [2, 2] none⟩

/-! ## Theorems for the claims -/

/-! ### Helper lemmas about the embedded operations -/

theorem equal_refl (l : List Nat) : equal l l = true := by
  induction l with
  | nil => rfl
  | cons a as ih => simp [equal, ih]

theorem equal_length_le {a b : List Nat} (h : equal a b = true) :
    a.length ≤ b.length := by
  induction a generalizing b with
  | nil => simp
  | cons x xs ih =>
      cases b with
      | nil => simp [equal] at h
      | cons y ys =>
          simp only [equal, Bool.and_eq_true] at h
          simpa [List.length_cons] using ih h.2

theorem eq_of_equal_of_le {a b : List Nat} (h : equal a b = true)
    (hl : b.length ≤ a.length) : a = b := by
  induction a generalizing b with
  | nil => cases b with
      | nil => rfl
      | cons y ys => simp at hl
  | cons x xs ih =>
      cases b with
      | nil => simp [equal] at h
      | cons y ys =>
          simp only [equal, Bool.and_eq_true, beq_iff_eq] at h
          simp only [List.length_cons, Nat.add_le_add_iff_right] at hl
          exact h.1 ▸ congrArg (x :: ·) (ih h.2 hl)

@[simp] theorem View.make_shape (s : List Nat) (o : Option (List Nat)) :
    (View.make s o).shape = s := by
  cases o <;> rfl

/-- Inversion for a bound `Except` computation that succeeded. -/
theorem except_bind_ok {α β : Type} {m : Except String α} {f : α → Except String β}
    {b : β} (h : (m >>= f) = .ok b) : ∃ a, m = .ok a ∧ f a = .ok b := by
  cases m with
  | error e => simp [Bind.bind, Except.bind] at h
  | ok a => exact ⟨a, rfl, by simpa [Bind.bind, Except.bind] using h⟩

theorem except_bind_of_ok {α β : Type} {m : Except String α} {f : α → Except String β}
    {a : α} (h : m = .ok a) : (m >>= f) = f a := by
  subst h; rfl

theorem view_reshape_shape {v : View} {s : List Nat} {w : View}
    (h : v.reshape s = .ok w) (hl : v.shape.length ≤ s.length) :
    w.shape = s := by
  by_cases heq : equal s v.shape
  · rw [View.reshape, if_pos heq] at h
    cases h
    exact (eq_of_equal_of_le heq hl).symm
  · rw [View.reshape, if_neg heq] at h
    simp only at h
    by_cases hsz : prod v.shape ≠ prod s
    · rw [if_pos hsz] at h; cases h
    · rw [if_neg hsz] at h
      by_cases hc : v.contiguous
      · rw [if_pos hc] at h
        cases h
        simp
      · rw [if_neg hc] at h; cases h

theorem view_expand_shape {v : View} {s : List Nat} {w : View}
    (h : v.expand s = .ok w) (hl : v.shape.length ≤ s.length) :
    w.shape = s := by
  by_cases heq : equal s v.shape
  · rw [View.expand, if_pos heq] at h
    cases h
    exact (eq_of_equal_of_le heq hl).symm
  · rw [View.expand, if_neg heq] at h
    by_cases hnd : v.ndim ≠ s.length
    · rw [if_pos hnd] at h; cases h
    · rw [if_neg hnd] at h
      by_cases hok : ¬ expandOk v.shape s = true
      · rw [if_pos hok] at h; cases h
      · rw [if_neg hok] at h
        cases h
        simp

theorem tensor_reshape_inv {R : Type} [LinearOrderedCommRing R]
    {x t : Tensor R} {s : List Nat}
    (h : x.reshape s = .ok t) :
    ∃ w, x.view.reshape s = .ok w ∧ t = ⟨x.data, w⟩ := by
  unfold Tensor.reshape at h
  obtain ⟨w, hv, hp⟩ := except_bind_ok h
  cases hp
  exact ⟨w, hv, rfl⟩

theorem tensor_expand_inv {R : Type} [LinearOrderedCommRing R]
    {x t : Tensor R} {s : List Nat}
    (h : x.expand s = .ok t) :
    ∃ w, x.view.expand s = .ok w ∧ t = ⟨x.data, w⟩ := by
  unfold Tensor.expand at h
  obtain ⟨w, hv, hp⟩ := except_bind_ok h
  cases hp
  exact ⟨w, hv, rfl⟩

theorem tensor_reshape_shape {R : Type} [LinearOrderedCommRing R]
    {x t : Tensor R} {s : List Nat}
    (h : x.reshape s = .ok t) (hl : x.shape.length ≤ s.length) :
    t.shape = s ∧ t.data = x.data := by
  obtain ⟨w, hv, rfl⟩ := tensor_reshape_inv h
  exact ⟨view_reshape_shape hv hl, rfl⟩

theorem tensor_expand_shape {R : Type} [LinearOrderedCommRing R]
    {x t : Tensor R} {s : List Nat}
    (h : x.expand s = .ok t) (hl : x.shape.length ≤ s.length) :
    t.shape = s ∧ t.data = x.data := by
  obtain ⟨w, hv, rfl⟩ := tensor_expand_inv h
  exact ⟨view_expand_shape hv hl, rfl⟩

theorem beq_nat_comm (a b : Nat) : (a == b) = (b == a) := by
  by_cases h : a = b
  · subst h; rfl
  · have h2 : (a == b) = false := by simpa using h
    have h3 : (b == a) = false := by simpa using fun hh => h hh.symm
    rw [h2, h3]

/-- The broadcast-compatibility `every` is symmetric in the two shapes. -/
theorem canBroadcastB_comm (l1 l2 : List Nat) :
    canBroadcastB l1 l2 = canBroadcastB l2 l1 := by
  induction l1 generalizing l2 with
  | nil => cases l2 <;> rfl
  | cons a as ih =>
      cases l2 with
      | nil => rfl
      | cons b bs =>
          simp only [canBroadcastB, List.zip_cons_cons, List.all_cons] at ih ⊢
          rw [ih bs, beq_nat_comm a b]
          ac_rfl

theorem commonShape_comm (l1 l2 : List Nat) :
    commonShape l1 l2 = commonShape l2 l1 := by
  unfold commonShape
  exact List.zipWith_comm_of_comm max Nat.max_comm l1 l2

theorem alignShape_length {m : Nat} {l : List Nat} (h : l.length ≤ m) :
    (alignShape m l).length = m := by
  simp [alignShape, Nat.sub_add_cancel h]

/-- `Tensor.broadcasted` is symmetric: swapping the operands swaps the
returned pair. -/
theorem broadcasted_comm {R : Type} [LinearOrderedCommRing R]
    {x y a b : Tensor R} (h : broadcasted x y = .ok (a, b)) :
    broadcasted y x = .ok (b, a) := by
  have hmax : max y.shape.length x.shape.length = max x.shape.length y.shape.length :=
    max_comm _ _
  simp only [broadcasted, hmax,
    canBroadcastB_comm (alignShape (max x.shape.length y.shape.length) y.shape)
      (alignShape (max x.shape.length y.shape.length) x.shape),
    commonShape_comm (alignShape (max x.shape.length y.shape.length) y.shape)
      (alignShape (max x.shape.length y.shape.length) x.shape)] at h ⊢
  split at h
  · cases h
  · next hcb =>
      rw [if_neg hcb]
      obtain ⟨a2, hxa, h⟩ := except_bind_ok h
      obtain ⟨a3, hxe, h⟩ := except_bind_ok h
      obtain ⟨b2, hyb, h⟩ := except_bind_ok h
      obtain ⟨b3, hye, h⟩ := except_bind_ok h
      rw [except_bind_of_ok hyb, except_bind_of_ok hye, except_bind_of_ok hxa,
        except_bind_of_ok hxe]
      cases h
      rfl

/-- Both tensors returned by a successful `broadcasted` carry the common
broadcast shape, hence equal shapes. -/
theorem broadcasted_shapes_eq {R : Type} [LinearOrderedCommRing R]
    {x y a b : Tensor R} (h : broadcasted x y = .ok (a, b)) :
    a.shape = b.shape := by
  simp only [broadcasted] at h
  split at h
  · cases h
  · obtain ⟨a2, hxa, h⟩ := except_bind_ok h
    obtain ⟨a3, hxe, h⟩ := except_bind_ok h
    obtain ⟨b2, hyb, h⟩ := except_bind_ok h
    obtain ⟨b3, hye, h⟩ := except_bind_ok h
    cases h
    have hxl : x.shape.length ≤ max x.shape.length y.shape.length := le_max_left _ _
    have hyl : y.shape.length ≤ max x.shape.length y.shape.length := le_max_right _ _
    have hal := alignShape_length hxl
    have hbl := alignShape_length hyl
    have hcl : (commonShape (alignShape (max x.shape.length y.shape.length) x.shape)
        (alignShape (max x.shape.length y.shape.length) y.shape)).length =
          max x.shape.length y.shape.length := by
      simp [commonShape, List.length_zipWith, hal, hbl]
    have h1 := (tensor_reshape_shape hxa (by rw [hal]; exact hxl)).1
    have h2 := (tensor_expand_shape hxe (by rw [h1, hal, hcl])).1
    have h3 := (tensor_reshape_shape hyb (by rw [hbl]; exact hyl)).1
    have h4 := (tensor_expand_shape hye (by rw [h3, hbl, hcl])).1
    rw [h2, h4]

/-- Commuting the operands of `Tensor.add` yields the very same result
tensor (the structural outcome of the elementwise loop is identical). -/
theorem add_ok_comm {R : Type} [LinearOrderedCommRing R]
    {x y t : Tensor R} (h : Tensor.add x y = .ok t) :
    Tensor.add y x = .ok t := by
  unfold Tensor.add at h ⊢
  obtain ⟨⟨a, b⟩, hb, h⟩ := except_bind_ok h
  rw [except_bind_of_ok (broadcasted_comm hb)]
  cases h
  dsimp only
  have hs : a.shape = b.shape := broadcasted_shapes_eq hb
  have hz : Tensor.zerosLike b = Tensor.zerosLike a := by
    unfold Tensor.zerosLike
    rw [hs]
  have hf : (fun idx => b.atN idx + a.atN idx) = (fun idx => a.atN idx + b.atN idx) :=
    funext fun idx => add_comm _ _
  rw [hz, hf]
  rfl

/-- On the repository's own (2,3)·(3,4) test vectors, `dot` does produce the
standard matrix product (supporting evidence that the failure below is a
square-shape bug rather than an embedding artifact). -/
theorem dot_rectangular_matches_repo_test :
    Tensor.dot cTestA cTestB =
      .ok ⟨[200, 220, 252, 282, 741, 819, 937, 1051], View.make [2, 4] none⟩ := by
  rfl

/-- C1: claimed — for rank-2 `a : (m,k)` and `b : (k,n)`, `a.dot(b)` is the
standard matrix product `Σ_q a[i,q]*b[q,j]`.  The code violates this for
every SQUARE right operand (`k = n ≥ 2`): `dot` reshapes `b` to `(1,k,k)`
and transposes its last two axes, but the permuted shape equals the
original shape, so `View.permute` hits its lax `equal(shape, this.shape)`
shortcut and returns the view UNCHANGED; `dot` then computes
`Σ_q a[i,q]*b[j,q]` (the product with the untransposed `b`).  At
`a = [[1,2],[3,4]]`, `b = [[5,6],[7,8]]` the code yields
`[[17,23],[39,53]]` whereas the standard product entry (0,0) is
`1*5 + 2*7 = 19`. -/
theorem dot_square_not_matrix_product :
    Tensor.dot c1A c1B = .ok ⟨[17, 23, 39, 53], View.make [2, 2] none⟩ ∧
    (Tensor.get (R := Int) ⟨[17, 23, 39, 53], View.make [2, 2] none⟩ [0, 0] = .ok 17) ∧
    (17 : Int) ≠ c1A.data.getD 0 0 * c1B.data.getD 0 0 + c1A.data.getD 1 0 * c1B.data.getD 2 0 := by
  refine ⟨rfl, rfl, ?_⟩
  decide

/-- C2: claimed — a second `backward` with the same gradient leaves every
leaf gradient at exactly TWICE its single-call value.  The code seeds the
root by accumulation and then propagates the root's TOTAL accumulated
gradient, so after two default-gradient calls on `r = x.add(y)` the leaves
hold `1 + 2 = 3` times the single-call value, not 2 times: after one call
`x.grad = y.grad = [1]`; after two calls `x.grad = y.grad = [3]` while the
claim demands `[2]`.  (The same explicit gradient `[1]` is supplied to
both calls.) -/
theorem backward_twice_triples_leaf_grads :
    c2Once.map (fun g => ((gnode g 0).grad, (gnode g 1).grad)) =
      .ok (some ⟨[1], View.make [1] none⟩, some ⟨[1], View.make [1] none⟩) ∧
    c2Twice.map (fun g => ((gnode g 0).grad, (gnode g 1).grad)) =
      .ok (some ⟨[3], View.make [1] none⟩, some ⟨[3], View.make [1] none⟩) ∧
    (3 : Int) ≠ 2 * 1 := by
  refine ⟨rfl, rfl, ?_⟩
  decide

/-- C3: claimed — `reshape(newShape)` fails with a shape-mismatch error
whenever `product(newShape) ≠ product(shape)`, never returning a View.  The
code first consults the lax `equal(newShape, this.shape)` (a PREFIX check),
so `View([2,3]).reshape([2])` — products 2 versus 6 — returns the original
view without any error. -/
theorem reshape_prefix_product_mismatch_no_error :
    prod [2] ≠ prod (View.make [2, 3] none).shape ∧
    (View.make [2, 3] none).reshape [2] = .ok (View.make [2, 3] none) := by
  refine ⟨?_, rfl⟩
  decide

/-- C4: claimed — for a permutation `order`, `permute` returns a View with
`shape[i] = old.shape[order[i]]` and `strides[i] = old.strides[order[i]]`.
The code compares the PERMUTED SHAPE (not the order) against the original
shape for its no-op shortcut, so permuting the square view `View([2,2])`
(strides `[2,1]`) by `[1,0]` returns the view unchanged with strides
`[2,1]`, whereas the claim demands strides `[old.strides[1], old.strides[0]]
= [1,2]`. -/
theorem permute_square_keeps_old_strides :
    (View.make [2, 2] none).permute [1, 0] = .ok (View.make [2, 2] none) ∧
    (View.make [2, 2] none).strides = [2, 1] ∧
    (View.make [2, 2] none).strides ≠
      (List.range 2).map (fun i =>
        (View.make [2, 2] none).strides.getD (([1, 0] : List Nat).getD i 0) 0) := by
  refine ⟨rfl, rfl, ?_⟩
  decide

/-- C5: claimed — `backward(g)` fails with a shape-mismatch error whenever
the shape of `g` is not exactly the root's shape.  The check is the lax
`equal(grad.shape, this.shape)`, which accepts any positionwise PREFIX: on
a root of shape `(2,3)` a supplied gradient of shape `(2)` raises no error
and is seeded as the root's gradient. -/
theorem backward_accepts_prefix_gradient :
    ([2] : List Nat) ≠ [2, 3] ∧
    c5Run.map (fun g => (gnode g 0).grad) =
      .ok (some ⟨[1, 1], View.make [2] none⟩) := by
  refine ⟨?_, rfl⟩
  decide

/-- C6: claimed — `sum(axis, keepDim)` fails with a range error for
`axis ≥ ndim` OR `axis < -ndim`.  Only the upper bound is checked: on the
rank-2 tensor `c6X`, `sum(5)` does error, but `sum(-3)` (with `-3 < -2`)
normalizes to `-1`, passes the check, reads `shape[-1] = undefined` so the
reduction loop never runs, and returns a ZERO-FILLED tensor of shape `(2)`
with no error. -/
theorem sum_negative_axis_below_range_no_error :
    c6X.sum 5 false = .error ("[Tensor.sum] axis is out of range") ∧
    (-3 : Int) < -(c6X.ndim : Int) ∧
    c6X.sum (-3) false = .ok ⟨[0, 0], View.make [2] none⟩ := by
  refine ⟨rfl, ?_, rfl⟩
  decide

/-! ### Lemmas for the View invariant (C8) -/

@[simp] theorem View.make_strides_none (s : List Nat) :
    (View.make s none).strides = stridesForShape s := rfl

@[simp] theorem View.make_strides_some (s st : List Nat) :
    (View.make s (some st)).strides = canonicalizeStrides s st := rfl

theorem canonicalizeStrides_length (sh st : List Nat) :
    (canonicalizeStrides sh st).length = st.length := by
  induction st generalizing sh with
  | nil => cases sh <;> rfl
  | cons s ss ih => cases sh <;> simp [canonicalizeStrides, ih]

theorem canonicalizeStrides_zero (sh st : List Nat) (i : Nat) (hi : i < st.length)
    (h1 : sh.getD i 0 = 1) : (canonicalizeStrides sh st).getD i 0 = 0 := by
  induction st generalizing sh i with
  | nil => simp at hi
  | cons s ss ih =>
      cases sh with
      | nil => simp at h1
      | cons a as =>
          cases i with
          | zero =>
              simp only [List.getD_cons_zero] at h1
              simp [canonicalizeStrides, h1]
          | succ j =>
              simp only [List.getD_cons_succ] at h1 ⊢
              simp only [canonicalizeStrides, List.getD_cons_succ]
              exact ih as j (by simpa using hi) h1

theorem rawStridesForShape_length (sh : List Nat) :
    (rawStridesForShape sh).length = sh.length := by
  induction sh with
  | nil => rfl
  | cons a as ih =>
      cases as with
      | nil => rfl
      | cons b bs => simpa [rawStridesForShape] using ih

theorem goodView_make_none (shape : List Nat) : goodView (View.make shape none) := by
  refine ⟨?_, ?_⟩
  · simp [stridesForShape, canonicalizeStrides_length, rawStridesForShape_length]
  · intro i hi h1
    simp only [View.make_shape] at hi h1
    simp only [View.make_strides_none, stridesForShape]
    exact canonicalizeStrides_zero _ _ _ (by rw [rawStridesForShape_length]; exact hi) h1

theorem goodView_make_some (shape strides : List Nat)
    (h : strides.length = shape.length) :
    goodView (View.make shape (some strides)) := by
  refine ⟨?_, ?_⟩
  · simp [canonicalizeStrides_length, h]
  · intro i hi h1
    simp only [View.make_shape] at hi h1
    simp only [View.make_strides_some]
    exact canonicalizeStrides_zero _ _ _ (by rw [h]; exact hi) h1

theorem goodView_permute {v : View} {order : List Int} {w : View}
    (hv : goodView v) (h : v.permute order = .ok w) : goodView w := by
  unfold View.permute at h
  split at h
  · cases h
  · simp only at h
    split at h
    · cases h
      exact hv
    · cases h
      apply goodView_make_some
      simp [hv.1]

theorem goodView_reshape {v : View} {s : List Nat} {w : View}
    (hv : goodView v) (h : v.reshape s = .ok w) : goodView w := by
  unfold View.reshape at h
  split at h
  · cases h
    exact hv
  · simp only at h
    split at h
    · cases h
    · split at h
      · cases h
        exact goodView_make_none s
      · cases h

theorem goodView_expand {v : View} {s : List Nat} {w : View}
    (hv : goodView v) (h : v.expand s = .ok w) : goodView w := by
  unfold View.expand at h
  split at h
  · cases h
    exact hv
  · split at h
    · cases h
    · split at h
      · cases h
      · next hnd _ =>
          cases h
          apply goodView_make_some
          rw [hv.1]
          simpa [View.ndim] using hnd

/-- C8: every View produced by the public surface — construction with or
without explicit strides (of matching length), permute, reshape, expand —
satisfies the invariant: strides aligned with the shape and stride 0 on
every axis of size 1.  The constructor canonicalizes, and the three
movement operations either return the view unchanged or construct a fresh
canonicalized view. -/
theorem view_size_one_axes_have_stride_zero :
    (∀ shape : List Nat, goodView (View.make shape none)) ∧
    (∀ shape strides : List Nat, strides.length = shape.length →
      goodView (View.make shape (some strides))) ∧
    (∀ (v : View) (order : List Int) (w : View), goodView v →
      v.permute order = .ok w → goodView w) ∧
    (∀ (v : View) (s : List Nat) (w : View), goodView v →
      v.reshape s = .ok w → goodView w) ∧
    (∀ (v : View) (s : List Nat) (w : View), goodView v →
      v.expand s = .ok w → goodView w) :=
  ⟨goodView_make_none, goodView_make_some,
    fun _ _ _ hv h => goodView_permute hv h,
    fun _ _ _ hv h => goodView_reshape hv h,
    fun _ _ _ hv h => goodView_expand hv h⟩

/-- Witness for C8 at concrete views: a default view of shape (2,1,3), an
explicit-strides view of shape (4,1), a genuine permutation, a reshape and
an expand of a size-1 axis. -/
theorem view_size_one_axes_have_stride_zero_witness :
    goodView (View.make [2, 1, 3] none) ∧
    (([7, 7] : List Nat).length = ([4, 1] : List Nat).length ∧
      goodView (View.make [4, 1] (some [7, 7]))) ∧
    (∃ w, View.permute (View.make [2, 1, 3] none) [2, 0, 1] = .ok w ∧ goodView w) ∧
    (∃ w, View.reshape (View.make [2, 1, 3] none) [3, 2] = .ok w ∧ goodView w) ∧
    (∃ w, View.expand (View.make [2, 1] none) [2, 5] = .ok w ∧ goodView w) :=
  ⟨view_size_one_axes_have_stride_zero.1 [2, 1, 3],
    ⟨rfl, view_size_one_axes_have_stride_zero.2.1 [4, 1] [7, 7] rfl⟩,
    ⟨_, rfl, view_size_one_axes_have_stride_zero.2.2.1 _ [2, 0, 1] _
      (view_size_one_axes_have_stride_zero.1 [2, 1, 3]) rfl⟩,
    ⟨_, rfl, view_size_one_axes_have_stride_zero.2.2.2.1 _ [3, 2] _
      (view_size_one_axes_have_stride_zero.1 [2, 1, 3]) rfl⟩,
    ⟨_, rfl, view_size_one_axes_have_stride_zero.2.2.2.2 _ [2, 5] _
      (view_size_one_axes_have_stride_zero.1 [2, 1]) rfl⟩⟩

/-- C7: for every pair of tensors with broadcast-compatible shapes (i.e.
whenever `a.add(b)` succeeds), `b.add(a)` succeeds as well and produces a
result of the same shape with the same buffer contents (hence equal logical
element values at every coordinate, the view being identical too): the
broadcast alignment, the common shape and the elementwise loop are all
symmetric, and addition of the scalars commutes. -/
theorem add_commutes {R : Type} [LinearOrderedCommRing R]
    (x y t : Tensor R) (h : Tensor.add x y = .ok t) :
    ∃ u, Tensor.add y x = .ok u ∧ u.view.shape = t.view.shape ∧ u.data = t.data :=
  ⟨t, add_ok_comm h, rfl, rfl⟩

/-- Witness for C7 at the concrete pair `[[1,2,3],[4,5,6]]` (shape (2,3))
and `[10,20,30]` (shape (3)). -/
theorem add_commutes_witness :
    Tensor.add c7A c7B = .ok c7R ∧
    ∃ u, Tensor.add c7B c7A = .ok u ∧ u.view.shape = c7R.view.shape ∧ u.data = c7R.data :=
  ⟨rfl, add_commutes c7A c7B c7R rfl⟩

/-! ### Lemmas for the uniform-initializer claim (C9): row-major ranking
of the index enumeration and evaluation of the elementwise fill. -/

theorem foldl_mul_init (l : List Nat) (a : Nat) :
    l.foldl (· * ·) a = a * l.foldl (· * ·) 1 := by
  induction l generalizing a with
  | nil => simp
  | cons x xs ih =>
      rw [List.foldl_cons, List.foldl_cons, ih (a * x), ih (1 * x)]
      ring

theorem prod_cons (x : Nat) (xs : List Nat) : prod (x :: xs) = x * prod xs := by
  unfold prod
  rw [List.foldl_cons, foldl_mul_init, one_mul]

theorem prod_replicate_one (n : Nat) : prod (List.replicate n 1) = 1 := by
  induction n with
  | zero => rfl
  | succ m ih => rw [List.replicate_succ, prod_cons, ih]

theorem raw_cons : ∀ (rest : List Nat) (s : Nat),
    rawStridesForShape (s :: rest) = prod rest :: rawStridesForShape rest := by
  intro rest
  induction rest with
  | nil => intro s; rfl
  | cons b bs ih =>
      intro s
      show (b * (rawStridesForShape (b :: bs)).headD 0) :: rawStridesForShape (b :: bs) = _
      rw [ih b]
      simp [prod_cons]

theorem stridesForShape_cons (s : Nat) (rest : List Nat) :
    stridesForShape (s :: rest) =
      (if s == 1 then 0 else prod rest) :: stridesForShape rest := by
  unfold stridesForShape
  rw [raw_cons]
  rfl

theorem stridesForShape_ones (n : Nat) :
    stridesForShape (List.replicate n 1) = List.replicate n 0 := by
  induction n with
  | zero => rfl
  | succ m ih => rw [List.replicate_succ, stridesForShape_cons, ih, List.replicate_succ]; rfl

theorem foldl_add_init (l : List (Nat × Nat)) (a : Nat) :
    l.foldl (fun acc p => acc + p.1 * p.2) a =
      a + l.foldl (fun acc p => acc + p.1 * p.2) 0 := by
  induction l generalizing a with
  | nil => simp
  | cons x xs ih =>
      rw [List.foldl_cons, List.foldl_cons, ih (a + x.1 * x.2), ih (0 + x.1 * x.2)]
      ring

theorem flat_cons (c i : Nat) (cs idx : List Nat) :
    flatIndexN (c :: cs) (i :: idx) = i * c + flatIndexN cs idx := by
  unfold flatIndexN
  rw [List.zip_cons_cons, List.foldl_cons, foldl_add_init]
  ring_nf

theorem flat_zero_strides : ∀ (idx : List Nat) (k : Nat),
    flatIndexN (List.replicate k 0) idx = 0 := by
  intro idx
  induction idx with
  | nil => intro k; rfl
  | cons i is ih =>
      intro k
      cases k with
      | zero => rfl
      | succ m => rw [List.replicate_succ, flat_cons, ih m]; ring

theorem range_mul_flatMap (s P : Nat) :
    (List.range s).flatMap (fun i => (List.range P).map (fun k => i * P + k)) =
      List.range (s * P) := by
  induction s with
  | zero => simp
  | succ n ih =>
      rw [List.range_succ, List.flatMap_append, ih, Nat.succ_mul, List.range_add]
      simp

/-- The row-major ranking property: mapping each enumerated coordinate
tuple through the default-strides offset computation lists exactly
`0, 1, ..., prod shape - 1` in order. -/
theorem enum_flat_ranks : ∀ (shape : List Nat),
    (enumIndices shape).map (fun idx => flatIndexN (stridesForShape shape) idx) =
      List.range (prod shape) := by
  intro shape
  induction shape with
  | nil => rfl
  | cons s rest ih =>
      rw [enumIndices, List.map_flatMap]
      have hstep : ∀ i ∈ List.range s,
          ((enumIndices rest).map (fun idx => i :: idx)).map
              (fun idx => flatIndexN (stridesForShape (s :: rest)) idx) =
            (List.range (prod rest)).map (fun k => i * prod rest + k) := by
        intro i hi
        rw [List.map_map]
        have hfun : ∀ idx,
            flatIndexN (stridesForShape (s :: rest)) (i :: idx) =
              i * prod rest + flatIndexN (stridesForShape rest) idx := by
          intro idx
          rw [stridesForShape_cons, flat_cons]
          by_cases hs : s = 1
          · have hi1 : i = 0 := by
              subst hs
              simpa using List.mem_range.mp hi
            simp [hs, hi1]
          · simp [hs]
        calc (enumIndices rest).map
              (fun idx => flatIndexN (stridesForShape (s :: rest)) (i :: idx))
            = (enumIndices rest).map
                (fun idx => i * prod rest + flatIndexN (stridesForShape rest) idx) := by
              exact List.map_congr_left (fun idx _ => hfun idx)
          _ = ((enumIndices rest).map
                (fun idx => flatIndexN (stridesForShape rest) idx)).map
                  (fun k => i * prod rest + k) := by
              rw [List.map_map]; rfl
          _ = (List.range (prod rest)).map (fun k => i * prod rest + k) := by rw [ih]
      calc (List.range s).flatMap (fun i =>
              ((enumIndices rest).map (fun idx => i :: idx)).map
                (fun idx => flatIndexN (stridesForShape (s :: rest)) idx))
          = (List.range s).flatMap (fun i =>
              (List.range (prod rest)).map (fun k => i * prod rest + k)) :=
            List.flatMap_congr hstep
        _ = List.range (s * prod rest) := range_mul_flatMap s (prod rest)
        _ = List.range (prod (s :: rest)) := by rw [prod_cons]

/-- The elementwise loop only writes the buffer; the view is fixed, so the
fold projects to a fold on the data list. -/
theorem fold_setAtN {R : Type} [LinearOrderedCommRing R] :
    ∀ (l : List (List Nat)) (res : Tensor R) (f : List Nat → R),
    l.foldl (fun r idx => r.setAtN idx (f idx)) res =
      ⟨l.foldl (fun d idx => d.set (flatIndexN res.view.strides idx) (f idx)) res.data,
        res.view⟩ := by
  intro l
  induction l with
  | nil => intro res f; rfl
  | cons idx rest ih =>
      intro res f
      rw [List.foldl_cons, List.foldl_cons, ih]
      rfl

/-- Writing `f k` at every position `k = 0, …, n-1` (in order) into a
zero buffer of length `n` (plus any tail) produces `map f (range n)`. -/
theorem foldl_set_range {R : Type} [LinearOrderedCommRing R] :
    ∀ (n : Nat) (f : Nat → R) (tail : List R),
    (List.range n).foldl (fun d k => d.set k (f k)) (List.replicate n (0 : R) ++ tail) =
      (List.range n).map f ++ tail := by
  intro n
  induction n with
  | zero => intro f tail; rfl
  | succ m ih =>
      intro f tail
      rw [List.range_succ, List.foldl_append, List.replicate_succ', List.append_assoc,
        List.singleton_append, ih, List.foldl_cons, List.foldl_nil,
        List.set_append_right m (f m) (by simp)]
      simp [List.range_succ]

/-- Filling a zero tensor of a given shape, at a value that depends only on
the flat offset, produces exactly the offset-indexed map. -/
theorem fill_zeros_data {R : Type} [LinearOrderedCommRing R]
    (shape : List Nat) (g : Nat → R) :
    fill (Tensor.zeros shape) (fun idx => g (flatIndexN (stridesForShape shape) idx)) =
      ⟨(List.range (prod shape)).map g, View.make shape none⟩ := by
  unfold fill Tensor.zeros
  rw [fold_setAtN]
  congr 1
  show (enumIndices (View.make shape none).shape).foldl
      (fun d idx => d.set (flatIndexN (View.make shape none).strides idx)
        (g (flatIndexN (stridesForShape shape) idx)))
      (List.replicate (prod shape) 0) = _
  rw [View.make_shape, View.make_strides_none]
  have hmap := List.foldl_map
    (fun idx => flatIndexN (stridesForShape shape) idx)
    (fun (d : List R) (k : Nat) => d.set k (g k))
    (enumIndices shape) (List.replicate (prod shape) (0 : R))
  rw [enum_flat_ranks] at hmap
  calc (enumIndices shape).foldl
        (fun d idx => d.set (flatIndexN (stridesForShape shape) idx)
          (g (flatIndexN (stridesForShape shape) idx)))
        (List.replicate (prod shape) 0)
      = (List.range (prod shape)).foldl (fun d k => d.set k (g k))
          (List.replicate (prod shape) 0) := hmap.symm
    _ = (List.range (prod shape)).map g := by
        have := foldl_set_range (prod shape) g ([] : List R)
        simpa using this

theorem canonical_zeros : ∀ (k : Nat) (sh : List Nat),
    canonicalizeStrides sh (List.replicate k 0) = List.replicate k 0 := by
  intro k
  induction k with
  | zero => intro sh; cases sh <;> rfl
  | succ m ih =>
      intro sh
      cases sh with
      | nil => show (0 : Nat) :: canonicalizeStrides [] (List.replicate m 0) = _
               rw [ih []]; rfl
      | cons s ss =>
          show (if s == 1 then 0 else 0) :: canonicalizeStrides ss (List.replicate m 0) = _
          rw [ih ss]
          simp [List.replicate_succ]

theorem expandOk_ones : ∀ (l : List Nat), expandOk (List.replicate l.length 1) l = true := by
  intro l
  induction l with
  | nil => rfl
  | cons a as ih => simp [List.replicate_succ, expandOk, ih]

theorem canBroadcastB_ones (l : List Nat) :
    canBroadcastB l (List.replicate l.length 1) = true := by
  induction l with
  | nil => rfl
  | cons a as ih => simp [List.replicate_succ, canBroadcastB, List.zip_cons_cons] at ih ⊢; exact ih

theorem commonShape_ones (l : List Nat) (hpos : ∀ s ∈ l, 1 ≤ s) :
    commonShape l (List.replicate l.length 1) = l := by
  induction l with
  | nil => rfl
  | cons a as ih =>
      have ha : 1 ≤ a := hpos a (by simp)
      simp only [commonShape, List.length_cons, List.replicate_succ,
        List.zipWith_cons_cons] at ih ⊢
      rw [ih (fun s hs => hpos s (by simp [hs])), Nat.max_eq_left ha]

theorem alignShape_self (l : List Nat) : alignShape l.length l = l := by
  simp [alignShape]

theorem alignShape_one (n : Nat) (hn : 1 ≤ n) :
    alignShape n [1] = List.replicate n 1 := by
  have : List.replicate (n - 1) (1 : Nat) ++ [1] = List.replicate (n - 1 + 1) 1 :=
    (List.replicate_succ' _ _).symm
  simp only [alignShape, List.length_cons, List.length_nil]
  rw [this, Nat.sub_add_cancel hn]

theorem getD_map_range {α : Type} (f : Nat → α) (d : α) {n k : Nat} (hk : k < n) :
    ((List.range n).map f).getD k d = f k := by
  rw [List.getD_eq_getElem?_getD, List.getElem?_map, List.getElem?_range hk]
  rfl

/-- Reshaping the wrapped scalar `Tensor.from([c])` (shape `[1]`) to the
all-ones aligned shape yields the default all-ones view (for rank 1 this is
the `equal` shortcut; for higher rank a fresh contiguous view). -/
theorem scalar_reshape_ones {R : Type} [LinearOrderedCommRing R] (c : R) (n : Nat)
    (hn : 1 ≤ n) :
    Tensor.reshape (⟨[c], View.make [1] none⟩ : Tensor R) (List.replicate n 1) =
      .ok ⟨[c], View.make (List.replicate n 1) none⟩ := by
  match n, hn with
  | 1, _ => rfl
  | (m + 2), _ =>
      have h1 : equal (List.replicate (m + 2) 1) ([1] : List Nat) = false := rfl
      have h2 : prod ([1] : List Nat) = 1 := rfl
      have h3 : (View.make [1] none).contiguous = true := rfl
      unfold Tensor.reshape View.reshape
      rw [View.make_shape, h1]
      simp only [Bool.false_eq_true, if_false, h2, prod_replicate_one, ne_eq,
        not_true_eq_false, if_true, h3]
      rfl

/-- Expanding the all-ones-view scalar to the target shape yields the data
`[c]` under an all-zero-strides view with the target shape. -/
theorem scalar_expand_ones {R : Type} [LinearOrderedCommRing R] (c : R)
    (shape : List Nat) :
    ∃ vb, Tensor.expand
        (⟨[c], View.make (List.replicate shape.length 1) none⟩ : Tensor R) shape =
          .ok ⟨[c], vb⟩ ∧
      vb.shape = shape ∧ vb.strides = List.replicate shape.length 0 := by
  by_cases heq : equal shape (List.replicate shape.length 1) = true
  · have hsh : shape = List.replicate shape.length 1 := eq_of_equal_of_le heq (by simp)
    refine ⟨View.make (List.replicate shape.length 1) none, ?_, ?_, ?_⟩
    · unfold Tensor.expand View.expand
      rw [View.make_shape, if_pos heq]
      rfl
    · rw [View.make_shape]; exact hsh.symm
    · rw [View.make_strides_none, stridesForShape_ones]
  · refine ⟨View.make shape (some (List.replicate shape.length 0)), ?_, ?_, ?_⟩
    · unfold Tensor.expand View.expand
      rw [View.make_shape, if_neg heq]
      have hnd : ¬ ((View.make (List.replicate shape.length 1) none).ndim ≠ shape.length) := by
        simp [View.ndim]
      rw [if_neg hnd]
      simp [expandOk_ones shape, stridesForShape_ones, Bind.bind, Except.bind, pure,
        Except.pure]
    · simp
    · rw [View.make_strides_some, canonical_zeros]

/-- `broadcasted(rand, scalar)` leaves the rand tensor untouched and
produces the scalar under an all-zero-strides view of the target shape. -/
theorem broadcasted_rand_scalar {R : Type} [LinearOrderedCommRing R]
    (rng : Nat → R) (shape : List Nat) (c : R)
    (hne : shape ≠ []) (hpos : ∀ s ∈ shape, 1 ≤ s) :
    ∃ vb, broadcasted (Tensor.rand rng shape) (⟨[c], View.make [1] none⟩ : Tensor R) =
        .ok (Tensor.rand rng shape, ⟨[c], vb⟩) ∧
      vb.shape = shape ∧ vb.strides = List.replicate shape.length 0 := by
  have hn : 1 ≤ shape.length := List.length_pos.mpr hne
  have hrs : (Tensor.rand rng shape).shape = shape := by
    simp [Tensor.rand, Tensor.shape]
  have hbs : (⟨[c], View.make [1] none⟩ : Tensor R).shape = [1] := rfl
  obtain ⟨vb, hexp, hvs, hvst⟩ := scalar_expand_ones (R := R) c shape
  refine ⟨vb, ?_, hvs, hvst⟩
  unfold broadcasted
  rw [hrs, hbs]
  simp only [List.length_cons, List.length_nil, Nat.zero_add, Nat.max_eq_left hn,
    alignShape_self, alignShape_one shape.length hn]
  rw [if_neg (by simp [canBroadcastB_ones shape])]
  rw [commonShape_ones shape hpos]
  have hra : Tensor.reshape (Tensor.rand rng shape) shape = .ok (Tensor.rand rng shape) := by
    unfold Tensor.reshape View.reshape
    rw [show (Tensor.rand rng shape).view.shape = shape from by simp [Tensor.rand],
      if_pos (equal_refl shape)]
    rfl
  have hre : Tensor.expand (Tensor.rand rng shape) shape = .ok (Tensor.rand rng shape) := by
    unfold Tensor.expand View.expand
    rw [show (Tensor.rand rng shape).view.shape = shape from by simp [Tensor.rand],
      if_pos (equal_refl shape)]
    rfl
  rw [except_bind_of_ok hra, except_bind_of_ok hre,
    except_bind_of_ok (scalar_reshape_ones c shape.length hn), except_bind_of_ok hexp]
  rfl

/-- Full evaluation of `Tensor.uniform`: element `k` of the result is
`rng k * (high - low)` — the lower bound is never added. -/
theorem uniform_eval {R : Type} [LinearOrderedCommRing R]
    (rng : Nat → R) (shape : List Nat) (low high : R)
    (hne : shape ≠ []) (hpos : ∀ s ∈ shape, 1 ≤ s) :
    Tensor.uniform rng shape low high =
      .ok ⟨(List.range (prod shape)).map (fun k => rng k * (high - low)),
        View.make shape none⟩ := by
  obtain ⟨vb, hb, hbs, hst⟩ := broadcasted_rand_scalar rng shape (high - low) hne hpos
  unfold Tensor.uniform Tensor.mulNum Tensor.mul
  rw [except_bind_of_ok hb]
  dsimp only
  have hz : (Tensor.rand rng shape).zerosLike = Tensor.zeros shape := by
    simp [Tensor.zerosLike, Tensor.rand, Tensor.shape]
  have hfun : (fun idx => (Tensor.rand rng shape).atN idx *
        Tensor.atN (⟨[high - low], vb⟩ : Tensor R) idx) =
      (fun idx => (fun k => ((List.range (prod shape)).map rng).getD k 0 * (high - low))
        (flatIndexN (stridesForShape shape) idx)) := by
    funext idx
    simp only [Tensor.atN, Tensor.rand, hst, flat_zero_strides, List.getD_cons_zero,
      View.make_strides_none]
  rw [hz, hfun,
    fill_zeros_data shape
      (fun k => ((List.range (prod shape)).map rng).getD k 0 * (high - low))]
  have hdata : (List.range (prod shape)).map
        (fun k => ((List.range (prod shape)).map rng).getD k 0 * (high - low)) =
      (List.range (prod shape)).map (fun k => rng k * (high - low)) :=
    List.map_congr_left (fun k hk => by rw [getD_map_range rng 0 (List.mem_range.mp hk)])
  rw [hdata]
  rfl

/-- C9: `Tensor.uniform(shape, low, high)` computes
`Tensor.rand(shape).mul(high - low)` and never adds `low`: element `k`
equals `rng k * (high - low)` for the k-th random-stream sample, so for a
genuine bounds pair `low < high` every produced value lies in
`[0, high - low)` instead of `[low, high)`; consequently
`Tensor.kaimingUniform` — which calls `uniform(shape, -bound, bound)` with
its non-negative square-root bound — produces only non-negative values
(`rng k * 2 * bound ≥ 0`). -/
theorem uniform_never_adds_low {R : Type} [LinearOrderedCommRing R]
    (rng : Nat → R) (shape : List Nat) (low high : R)
    (hne : shape ≠ []) (hpos : ∀ s ∈ shape, 1 ≤ s)
    (hr : ∀ n, 0 ≤ rng n ∧ rng n < 1) :
    (∃ t, Tensor.uniform rng shape low high = .ok t ∧
      t.data = (List.range (prod shape)).map (fun k => rng k * (high - low)) ∧
      (low < high → ∀ x ∈ t.data, 0 ≤ x ∧ x < high - low)) ∧
    (∀ bound : R, 0 ≤ bound →
      ∃ t, Tensor.kaimingUniform rng shape bound = .ok t ∧ ∀ x ∈ t.data, 0 ≤ x) := by
  constructor
  · refine ⟨_, uniform_eval rng shape low high hne hpos, rfl, ?_⟩
    intro hlh x hx
    simp only [List.mem_map, List.mem_range] at hx
    obtain ⟨k, hk, rfl⟩ := hx
    have h0 : (0 : R) < high - low := sub_pos.mpr hlh
    refine ⟨mul_nonneg (hr k).1 (le_of_lt h0), ?_⟩
    have := mul_lt_mul_of_pos_right (hr k).2 h0
    simpa using this
  · intro bound hb
    refine ⟨_, uniform_eval rng shape (-bound) bound hne hpos, ?_⟩
    intro x hx
    simp only [List.mem_map, List.mem_range] at hx
    obtain ⟨k, hk, rfl⟩ := hx
    have h2 : (0 : R) ≤ bound - -bound := by
      simpa [sub_neg_eq_add] using add_nonneg hb hb
    exact mul_nonneg (hr k).1 h2

/-- Witness for C9: the constant stream `1/2` over `Rat`, shape `(2,2)`,
bounds `low = 5, high = 7` (so the four produced values are all `1`, inside
`[0, 2)` rather than `[5, 7)`), with the kaiming part available at every
non-negative bound. -/
theorem uniform_never_adds_low_witness :
    (([2, 2] : List Nat) ≠ [] ∧ (∀ s ∈ ([2, 2] : List Nat), 1 ≤ s) ∧
      (∀ n : Nat, 0 ≤ (fun _ : Nat => (1 : Rat) / 2) n ∧
        (fun _ : Nat => (1 : Rat) / 2) n < 1)) ∧
    ((∃ t, Tensor.uniform (fun _ : Nat => (1 : Rat) / 2) [2, 2] 5 7 = .ok t ∧
        t.data = (List.range (prod [2, 2])).map
          (fun k => (fun _ : Nat => (1 : Rat) / 2) k * (7 - 5)) ∧
        ((5 : Rat) < 7 → ∀ x ∈ t.data, 0 ≤ x ∧ x < 7 - 5)) ∧
      (∀ bound : Rat, 0 ≤ bound →
        ∃ t, Tensor.kaimingUniform (fun _ : Nat => (1 : Rat) / 2) [2, 2] bound = .ok t ∧
          ∀ x ∈ t.data, 0 ≤ x)) := by
  refine ⟨⟨by decide, by decide, fun n => by norm_num⟩, ?_⟩
  exact uniform_never_adds_low (fun _ : Nat => (1 : Rat) / 2) [2, 2] 5 7
    (by decide) (by decide) (fun n => by norm_num)

/-- C10: `get` and `set` check only the ARITY of the index (its length
against `ndim`); the components are never range-checked, so any full-rank
index — including negative components or components at or beyond the axis
size — never produces an error (a JS typed array returns `undefined` on an
out-of-range read and silently drops an out-of-range write). -/
theorem get_set_check_only_arity {R : Type} [LinearOrderedCommRing R]
    (t : Tensor R) (indices : List Int) (v : R) (h : indices.length = t.ndim) :
    (∃ r, t.get indices = .ok r) ∧ (∃ u, t.set indices v = .ok u) := by
  constructor
  · exact ⟨_, by rw [Tensor.get, if_neg (by rw [h]; exact fun hh => hh rfl)]⟩
  · exact ⟨_, by rw [Tensor.set, if_neg (by rw [h]; exact fun hh => hh rfl)]⟩

/-- Witness for C10: a (2,2) tensor indexed at `[-1, 5]` — a full-rank index
whose components are far out of range — neither read nor write errors. -/
theorem get_set_check_only_arity_witness :
    ([-1, 5] : List Int).length = c10T.ndim ∧
    (∃ r, c10T.get [-1, 5] = .ok r) ∧ (∃ u, c10T.set [-1, 5] 99 = .ok u) :=
  ⟨rfl, get_set_check_only_arity c10T [-1, 5] 99 rfl⟩

end Typegrad
